import Mathlib

/-!
Verification of the slide text extractor of `src/app.py`
(PPTX-to-TXT-Converter-Python-HTML).

The extractor consumes a parsed presentation document: a list of slides,
each holding a tree of shapes (groups, placeholders, plain shapes), a
layout and a master.  It flattens grouped shapes into absolute
coordinates, backfills placeholders from the layout and master, sorts by
position and assembles the text.  The definitions below are a shallow
embedding of that code; positions are `Int` (EMU values), missing
geometry is `Option.none`, and the `hasattr(shape, "text")` check is an
`Option String` text field.
-/

namespace PptxToTxt

/-- Placeholder type (`placeholder_format.type` in python-pptx); only
`SLIDE_NUMBER` is distinguished by the extractor. -/
inductive PHType where
  | SlideNumber
  | Title
  | Body
  | OtherType
deriving DecidableEq, Repr

/-- A shape of a slide/layout/master: a group with children, a
placeholder with an index and a type, or a plain shape.  `top`/`left`
are `none` when the shape has no such attribute (the `hasattr` checks
in `app.py`); `text` is `none` for shapes with no text attribute. -/
inductive Shape where
  | group (top left : Option Int) (children : List Shape)
  | placeholder (top left : Option Int) (idx : Nat) (ptype : PHType) (text : Option String)
  | other (top left : Option Int) (text : Option String)

namespace Shape

/-- `shape.top.emu if hasattr(shape, 'top') and shape.top is not None else 0`. -/
def topOr0 : Shape → Int
  | .group t _ _ => t.getD 0
  | .placeholder t _ _ _ _ => t.getD 0
  | .other t _ _ => t.getD 0

/-- `shape.left.emu if hasattr(shape, 'left') and shape.left is not None else 0`. -/
def leftOr0 : Shape → Int
  | .group _ l _ => l.getD 0
  | .placeholder _ l _ _ _ => l.getD 0
  | .other _ l _ => l.getD 0

/-- The shape's optional text attribute (`hasattr(shape, "text")` is
`Option.isSome`); group shapes expose no text attribute. -/
def text : Shape → Option String
  | .group _ _ _ => none
  | .placeholder _ _ _ _ t => t
  | .other _ _ t => t

/-- `shape.is_placeholder`. -/
def is_placeholder : Shape → Bool
  | .placeholder _ _ _ _ _ => true
  | _ => false

/-- `shape.shape_type == MSO_SHAPE_TYPE.GROUP`. -/
def is_group : Shape → Bool
  | .group _ _ _ => true
  | _ => false

/-- `shape.placeholder_format.idx`; only ever consulted on placeholder
shapes (python-pptx raises otherwise), default 0 elsewhere. -/
def placeholderIdx : Shape → Nat
  | .placeholder _ _ i _ _ => i
  | _ => 0

/-- `shape.placeholder_format.type`, `none` on non-placeholders. -/
def phType : Shape → Option PHType
  | .placeholder _ _ _ ty _ => some ty
  | _ => none

end Shape

/-- The record `{'shape': shape, 'top': abs_top, 'left': abs_left}`
built by `get_shapes_with_abs_position` and the backfill loops. -/
structure ShapeInfo where
  shape : Shape
  top : Int
  left : Int

/-- `get_shapes_with_abs_position(shapes, parent_top, parent_left)` of
`app.py` (lines 39-50): flatten a shape tree, recursing into groups with
the group's absolute position as the new accumulated offset and emitting
one record per non-group shape. -/
def get_shapes_with_abs_position : List Shape → Int → Int → List ShapeInfo
  | [], _, _ => []
  | shape :: rest, parent_top, parent_left =>
    (match shape with
     | .group t l children =>
        get_shapes_with_abs_position children
          (parent_top + (Shape.group t l children).topOr0)
          (parent_left + (Shape.group t l children).leftOr0)
     | .placeholder t l i ty tx =>
        [⟨.placeholder t l i ty tx,
          parent_top + (Shape.placeholder t l i ty tx).topOr0,
          parent_left + (Shape.placeholder t l i ty tx).leftOr0⟩]
     | .other t l tx =>
        [⟨.other t l tx,
          parent_top + (Shape.other t l tx).topOr0,
          parent_left + (Shape.other t l tx).leftOr0⟩]) ++
    get_shapes_with_abs_position rest parent_top parent_left
termination_by shapes => sizeOf shapes

/-- Follows the spec's words (§4.1, claim C1): the non-group shapes
reachable through groups, each paired with the list of its enclosing
group shapes (outermost first).  Used only to state the refinement of
`get_shapes_with_abs_position` against the spec. -/
def leavesWithGroups : List Shape → List (List Shape × Shape)
  | [] => []
  | shape :: rest =>
    (match shape with
     | .group t l children =>
        (leavesWithGroups children).map
          (fun p => (Shape.group t l children :: p.1, p.2))
     | .placeholder t l i ty tx => [([], Shape.placeholder t l i ty tx)]
     | .other t l tx => [([], Shape.other t l tx)]) ++
    leavesWithGroups rest
termination_by shapes => sizeOf shapes

/-- Every leaf listed by `leavesWithGroups` is a non-group shape. -/
theorem leavesWithGroups_not_group :
    ∀ (shapes : List Shape), ∀ p ∈ leavesWithGroups shapes, p.2.is_group = false := by
  intro shapes
  induction shapes using leavesWithGroups.induct with
  | case1 => simp [leavesWithGroups]
  | case2 shape rest ih1 ih2 =>
    intro p hp
    cases shape with
    | group t l cs =>
      rw [leavesWithGroups] at hp
      simp only at ih1
      rcases List.mem_append.1 hp with h | h
      · simp only [List.mem_map] at h
        obtain ⟨q, hq, rfl⟩ := h
        exact ih1 q hq
      · exact ih2 p h
    | placeholder t l i ty tx =>
      rw [leavesWithGroups] at hp
      rcases List.mem_append.1 hp with h | h
      · simp only [List.mem_singleton] at h
        subst h
        rfl
      · exact ih2 p h
    | other t l tx =>
      rw [leavesWithGroups] at hp
      rcases List.mem_append.1 hp with h | h
      · simp only [List.mem_singleton] at h
        subst h
        rfl
      · exact ih2 p h

/-- The flattener agrees with the spec-side description: one record per
reachable non-group leaf, positioned at the accumulated offset plus the
sum of the enclosing groups' offsets plus the leaf's own offset. -/
theorem get_shapes_eq_leaves :
    ∀ (shapes : List Shape) (pt pl : Int),
    get_shapes_with_abs_position shapes pt pl =
      (leavesWithGroups shapes).map (fun p =>
        ⟨p.2, pt + ((p.1.map Shape.topOr0).sum + p.2.topOr0),
              pl + ((p.1.map Shape.leftOr0).sum + p.2.leftOr0)⟩) := by
  intro shapes pt pl
  induction shapes, pt, pl using get_shapes_with_abs_position.induct with
  | case1 pt pl => simp [get_shapes_with_abs_position, leavesWithGroups]
  | case2 shape rest pt pl ih1 ih2 =>
    cases shape with
    | group t l cs =>
      simp only at ih1
      rw [get_shapes_with_abs_position, leavesWithGroups]
      simp only [ih1, ih2, List.map_append, List.map_map]
      congr 1
      apply List.map_congr_left
      intro p _
      simp [Shape.topOr0, Shape.leftOr0, Function.comp]
      constructor <;> ring
    | placeholder t l i ty tx =>
      rw [get_shapes_with_abs_position, leavesWithGroups]
      simp [ih2]
    | other t l tx =>
      rw [get_shapes_with_abs_position, leavesWithGroups]
      simp [ih2]

/-- Python's `str.strip()`: the string with leading and trailing
whitespace removed.  Defined on the character list (rather than via
`String.trim`) so that it computes by kernel reduction. -/
def pyStrip (s : String) : String :=
  ⟨((s.data.dropWhile Char.isWhitespace).reverse.dropWhile
      Char.isWhitespace).reverse⟩

/-- Python's `str.lower()`. -/
def pyLower (s : String) : String :=
  ⟨s.data.map Char.toLower⟩

/-- A master: its placeholder collection (`slide_master.placeholders`). -/
structure Master where
  placeholders : List Shape

/-- A layout: its placeholder collection and its master. -/
structure Layout where
  placeholders : List Shape
  slide_master : Master

/-- A slide: its authored shape tree and its layout. -/
structure Slide where
  shapes : List Shape
  slide_layout : Layout

/-- Lines 55-59 of `app.py`: the set of `placeholder_format.idx` values
already present among the flattened slide records (a Python set; modelled
as a list used only through membership). -/
def added_placeholder_idxs (infos : List ShapeInfo) : List Nat :=
  (infos.filter (fun info => info.shape.is_placeholder)).map
    (fun info => info.shape.placeholderIdx)

/-- Lines 60-65 of `app.py`: walk the layout's placeholders in authored
order; for each index not yet covered, append a record at the shape's own
(unaccumulated) position and add the index to the covered set.  Returns
the appended records and the updated covered set. -/
def layoutBackfill (covered : List Nat) : List Shape → List ShapeInfo × List Nat
  | [] => ([], covered)
  | s :: rest =>
    if s.placeholderIdx ∈ covered then layoutBackfill covered rest
    else
      ((⟨s, s.topOr0, s.leftOr0⟩ : ShapeInfo) ::
          (layoutBackfill (s.placeholderIdx :: covered) rest).1,
        (layoutBackfill (s.placeholderIdx :: covered) rest).2)

/-- Lines 66-70 of `app.py`: walk the master's placeholders in authored
order; for each index not covered, append a record; the covered set is
NOT extended here (the source omits the `add`). -/
def masterBackfill (covered : List Nat) : List Shape → List ShapeInfo
  | [] => []
  | s :: rest =>
    if s.placeholderIdx ∈ covered then masterBackfill covered rest
    else ⟨s, s.topOr0, s.leftOr0⟩ :: masterBackfill covered rest

/-- Lines 54-70 of `app.py`: the candidate record set for one slide —
flattened slide shapes, then layout backfill, then master backfill. -/
def all_shape_infos (slide : Slide) : List ShapeInfo :=
  let slideRecs := get_shapes_with_abs_position slide.shapes 0 0
  let covered := added_placeholder_idxs slideRecs
  let lb := layoutBackfill covered slide.slide_layout.placeholders
  slideRecs ++ lb.1 ++ masterBackfill lb.2 slide.slide_layout.slide_master.placeholders

/-- The comparison underlying `key=lambda info: (info['top'], info['left'])`:
Python compares the key tuples lexicographically. -/
def infoLe (a b : ShapeInfo) : Bool :=
  decide (a.top < b.top ∨ (a.top = b.top ∧ a.left ≤ b.left))

/-- Line 71 of `app.py`: keep only records whose shape has a text
attribute (`hasattr(info['shape'], "text")`). -/
def text_shape_infos (infos : List ShapeInfo) : List ShapeInfo :=
  infos.filter (fun info => info.shape.text.isSome)

/-- Line 72 of `app.py`: `sorted(...)` — Python's sort is stable and
compares the key tuples lexicographically; modelled by `List.mergeSort`. -/
def sorted_shape_infos (slide : Slide) : List ShapeInfo :=
  (text_shape_infos (all_shape_infos slide)).mergeSort infoLe

/-- `shape.is_placeholder and shape.placeholder_format.type ==
PP_PLACEHOLDER.SLIDE_NUMBER` (line 76). -/
def Shape.isSlideNumberPH (s : Shape) : Bool :=
  s.is_placeholder && (s.phType == some PHType.SlideNumber)

/-- Lines 74-79 of `app.py`: the text a record contributes on slide `i`
(1-based): the slide index for a SlideNumber placeholder, otherwise the
stripped text attribute, otherwise the empty string. -/
def shapeRenderedText (i : Nat) (s : Shape) : String :=
  if s.isSlideNumberPH then toString i
  else
    match s.text with
    | some t => pyStrip t
    | none => ""

/-- Lines 80-81 of `app.py`: `if text: slide_text += text + "\n"`. -/
def appendShapeText (i : Nat) (acc : String) (info : ShapeInfo) : String :=
  if shapeRenderedText i info.shape = "" then acc
  else acc ++ shapeRenderedText i info.shape ++ "\n"

/-- Lines 52-82 of `app.py`: one slide's block — the header followed by
the nonempty rendered texts of the sorted records. -/
def slide_text (i : Nat) (slide : Slide) : String :=
  (sorted_shape_infos slide).foldl (appendShapeText i)
    ("=== SLIDE " ++ toString i ++ " ===\n")

/-- Lines 52-82 of `app.py`: the `text_content` list — one block per
slide, enumerated from 1. -/
def slideBlocks (slides : List Slide) : List String :=
  (List.enumFrom 1 slides).map (fun p => slide_text p.1 p.2)

/-- Line 83 of `app.py`: `"\n".join(text_content)`. -/
def extract_text_from_pptx (slides : List Slide) : String :=
  String.intercalate "\n" (slideBlocks slides)

/-- The records of a list that actually contribute a line (nonempty
rendered text) on slide `i`. -/
def emittedInfos (i : Nat) (infos : List ShapeInfo) : List ShapeInfo :=
  infos.filter (fun info => shapeRenderedText i info.shape != "")

/-- Number of records in a list carrying a placeholder with index `k`. -/
def phCount (k : Nat) (infos : List ShapeInfo) : Nat :=
  (infos.filter (fun info =>
    info.shape.is_placeholder && (info.shape.placeholderIdx == k))).length

/-- Result of the collaborator `Presentation(file_path)`: a parsed
document, or a parse failure with a message. -/
inductive ParsedInput where
  | ok (slides : List Slide)
  | parseError (msg : String)

/-- Lines 30-85 of `app.py`: the whole extraction inside
`try/except Exception`: re-raised with the wrapping message on any
failure; only parsing can fail, the rest of the body is total. -/
def extract_text (input : ParsedInput) : Except String String :=
  match input with
  | .ok slides => .ok (extract_text_from_pptx slides)
  | .parseError msg => .error ("Error processing PowerPoint file: " ++ msg)

/-- Line 14 of `app.py`. -/
def ALLOWED_EXTENSIONS : List String := ["pptx", "ppt"]

/-- `filename.rsplit('.', 1)[1]` when a dot is present: the substring
after the last dot. -/
def extAfterLastDot (filename : String) : String :=
  ⟨(filename.data.reverse.takeWhile (fun c => c != '.')).reverse⟩

/-- Lines 25-28 of `app.py`: `'.' in filename and
filename.rsplit('.', 1)[1].lower() in ALLOWED_EXTENSIONS`. -/
def allowed_file (filename : String) : Bool :=
  filename.data.contains '.' &&
    ALLOWED_EXTENSIONS.contains (pyLower (extAfterLastDot filename))

/-- An uploaded file: its client-supplied name and what parsing its saved
bytes yields. -/
structure UploadedFile where
  filename : String
  content : ParsedInput

/-- A request to `/api/convert-to-text`: the optional `file` part. -/
structure ConvertRequest where
  file : Option UploadedFile

/-- A JSON response together with its HTTP status code. -/
inductive HttpResponse where
  | jsonError (msg : String) (status : Nat)
  | jsonSuccess (text filename : String) (status : Nat)
deriving DecidableEq

/-- Lines 93-107 of `app.py` (`/api/convert-to-text`): validation, then
extraction of the saved upload; the temp-file plumbing is outside the
model, parsing the saved bytes is the `content` field. -/
def convert_pptx_to_text (req : ConvertRequest) : HttpResponse :=
  match req.file with
  | none => .jsonError "No file provided" 400
  | some f =>
    if f.filename = "" || !allowed_file f.filename then
      .jsonError "Invalid file or file type" 400
    else
      match extract_text f.content with
      | .ok t => .jsonSuccess t f.filename 200
      | .error e => .jsonError e 500

/-- C1: flattening a slide's shape tree emits exactly one record per
non-group shape reachable through groups, at absolute position equal to
the accumulated offset plus the sum of the enclosing groups' offsets
plus the shape's own offset (missing offsets count as 0); no record is
emitted for a group; in particular a shape at (5,5) inside a group at
(10,10) inside a group at (100,100) lands at (115,115). -/
theorem claim_C1_group_flattening :
    (∀ (shapes : List Shape) (pt pl : Int),
      get_shapes_with_abs_position shapes pt pl =
        (leavesWithGroups shapes).map (fun p =>
          ⟨p.2, pt + ((p.1.map Shape.topOr0).sum + p.2.topOr0),
                pl + ((p.1.map Shape.leftOr0).sum + p.2.leftOr0)⟩)) ∧
    (∀ (shapes : List Shape) (pt pl : Int),
      ∀ info ∈ get_shapes_with_abs_position shapes pt pl,
        info.shape.is_group = false) ∧
    get_shapes_with_abs_position
      [Shape.group (some 100) (some 100)
        [Shape.group (some 10) (some 10)
          [Shape.other (some 5) (some 5) (some "x")]]] 0 0 =
      [⟨Shape.other (some 5) (some 5) (some "x"), 115, 115⟩] := by
  refine ⟨get_shapes_eq_leaves, ?_, ?_⟩
  · intro shapes pt pl info hinfo
    rw [get_shapes_eq_leaves] at hinfo
    simp only [List.mem_map] at hinfo
    obtain ⟨p, hp, rfl⟩ := hinfo
    exact leavesWithGroups_not_group shapes p hp
  · simp [get_shapes_with_abs_position, Shape.topOr0, Shape.leftOr0]

/-- Witness for C1: the record produced at the nested-group example is a
non-group record, by the claim's second conjunct. -/
theorem claim_C1_group_flattening_witness :
    (ShapeInfo.mk (Shape.other (some 5) (some 5) (some "x")) 115 115).shape.is_group
      = false :=
  claim_C1_group_flattening.2.1
    [Shape.group (some 100) (some 100)
      [Shape.group (some 10) (some 10) [Shape.other (some 5) (some 5) (some "x")]]] 0 0
    ⟨Shape.other (some 5) (some 5) (some "x"), 115, 115⟩
    (by rw [claim_C1_group_flattening.2.2]; exact List.mem_singleton.mpr rfl)

/-- C5: a record whose shape is a placeholder of type SlideNumber always
contributes the decimal rendering of the slide's 1-based index,
regardless of any authored text; on slide 3 that is literally "3". -/
theorem claim_C5_slide_number :
    (∀ (n : Nat) (t l : Option Int) (idx : Nat) (txt : Option String),
      shapeRenderedText n (Shape.placeholder t l idx PHType.SlideNumber txt)
        = toString n) ∧
    shapeRenderedText 3
      (Shape.placeholder none none 10 PHType.SlideNumber (some "authored")) = "3" := by
  constructor
  · intro n t l idx txt
    simp [shapeRenderedText, Shape.isSlideNumberPH, Shape.is_placeholder, Shape.phType]
  · rfl

/-- C6: a record whose shape is not a SlideNumber placeholder contributes
its text attribute trimmed of leading/trailing whitespace, and when the
trimmed text is empty (e.g. whitespace-only text) the assembly step
leaves the accumulated slide text unchanged — no blank line. -/
theorem claim_C6_trim_and_suppress :
    ∀ (i : Nat) (s : Shape) (top left : Int) (acc : String),
      s.isSlideNumberPH = false →
      shapeRenderedText i s = pyStrip (s.text.getD "") ∧
      (pyStrip (s.text.getD "") = "" →
        appendShapeText i acc ⟨s, top, left⟩ = acc) := by
  intro i s top left acc h
  have hrend : shapeRenderedText i s = pyStrip (s.text.getD "") := by
    cases hs : s.text with
    | some t => simp [shapeRenderedText, h, hs]
    | none =>
      simp only [shapeRenderedText, h, Bool.false_eq_true, if_false, hs, Option.getD_none]
      rfl
  refine ⟨hrend, fun hempty => ?_⟩
  simp [appendShapeText, hrend, hempty]

/-- Witness for C6: a shape whose text is three spaces contributes no
line — the fold step returns the accumulator unchanged. -/
theorem claim_C6_trim_and_suppress_witness :
    appendShapeText 1 "A" ⟨Shape.other none none (some "   "), 0, 0⟩ = "A" :=
  (claim_C6_trim_and_suppress 1 (Shape.other none none (some "   ")) 0 0 "A"
    rfl).2 (by decide)

/-- C8: extraction either yields the complete text of the parsed
document or fails with the single wrapped error carrying the cause's
description; the error branch is reached exactly when parsing failed. -/
theorem claim_C8_error_wrapping :
    ∀ (input : ParsedInput),
      (∃ slides, input = ParsedInput.ok slides ∧
        extract_text input = Except.ok (extract_text_from_pptx slides)) ∨
      (∃ msg, input = ParsedInput.parseError msg ∧
        extract_text input = Except.error
          ("Error processing PowerPoint file: " ++ msg)) := by
  intro input
  cases input with
  | ok slides => exact Or.inl ⟨slides, rfl, rfl⟩
  | parseError msg => exact Or.inr ⟨msg, rfl, rfl⟩

/-- C9: the extractor is a pure function of the parsed document — two
runs on the same input produce identical output. -/
theorem claim_C9_determinism :
    ∀ (input : ParsedInput) (slides : List Slide),
      extract_text input = extract_text input ∧
      extract_text_from_pptx slides = extract_text_from_pptx slides :=
  fun _ _ => ⟨rfl, rfl⟩

/-- C10: a request with no file part, an empty filename, or a filename
whose extension is not pptx/ppt (case-insensitively) gets a 400 JSON
error, and the response does not depend on the upload's content — the
extractor is never consulted. -/
theorem claim_C10_upload_validation :
    (convert_pptx_to_text ⟨none⟩ = HttpResponse.jsonError "No file provided" 400) ∧
    (∀ (fname : String) (c : ParsedInput),
      (fname = "" ∨ allowed_file fname = false) →
      convert_pptx_to_text ⟨some ⟨fname, c⟩⟩ =
        HttpResponse.jsonError "Invalid file or file type" 400) := by
  constructor
  · rfl
  · intro fname c h
    have hb : (decide (fname = "") || !allowed_file fname) = true := by
      rcases h with h | h <;> simp [h]
    simp [convert_pptx_to_text, hb]

/-- Witness for C10: a .txt upload is rejected with status 400. -/
theorem claim_C10_upload_validation_witness :
    convert_pptx_to_text ⟨some ⟨"evil.txt", ParsedInput.parseError "boom"⟩⟩ =
      HttpResponse.jsonError "Invalid file or file type" 400 :=
  claim_C10_upload_validation.2 "evil.txt" (ParsedInput.parseError "boom")
    (Or.inr (by decide))

/-- The sort comparison is transitive. -/
theorem infoLe_trans : ∀ (a b c : ShapeInfo), infoLe a b → infoLe b c → infoLe a c := by
  intro a b c hab hbc
  simp only [infoLe, decide_eq_true_eq] at hab hbc ⊢
  omega

/-- The sort comparison is total. -/
theorem infoLe_total : ∀ (a b : ShapeInfo), infoLe a b || infoLe b a := by
  intro a b
  simp only [infoLe, Bool.or_eq_true, decide_eq_true_eq]
  omega

/-- Stability of `mergeSort` under a predicate all of whose members
compare `infoLe` with each other: the selected records keep exactly the
input's relative order. -/
theorem mergeSort_filter_stable (l : List ShapeInfo) (p : ShapeInfo → Bool)
    (hp : ∀ a b, p a = true → p b = true → infoLe a b = true) :
    (l.mergeSort infoLe).filter p = l.filter p := by
  have hsub : List.Sublist (l.filter p) (l.mergeSort infoLe) := by
    apply List.sublist_mergeSort infoLe_trans infoLe_total
    · exact List.pairwise_of_forall_mem_list (fun a ha b hb =>
        hp a b (List.mem_filter.1 ha).2 (List.mem_filter.1 hb).2)
    · exact List.filter_sublist l
  have hsub2 : List.Sublist (l.filter p) ((l.mergeSort infoLe).filter p) := by
    have h2 := hsub.filter p
    rw [List.filter_filter] at h2
    simpa only [Bool.and_self] using h2
  have hlen : ((l.mergeSort infoLe).filter p).length = (l.filter p).length :=
    ((List.mergeSort_perm l infoLe).filter p).length_eq
  exact (hsub2.eq_of_length hlen.symm).symm

/-- C2: for every slide, the text-bearing records are sorted ascending
by the pair (absoluteTop, absoluteLeft) with top primary and left
breaking ties; records equal on both keys keep their relative order
from the concatenated candidate list (stable sort); consequently the
emitted records are pairwise ordered the same way. -/
theorem claim_C2_position_sort (slide : Slide) (i : Nat) :
    ((sorted_shape_infos slide).Pairwise (fun a b =>
        a.top < b.top ∨ (a.top = b.top ∧ a.left ≤ b.left))) ∧
    (∀ t l : Int,
      (sorted_shape_infos slide).filter
          (fun r => r.top == t && r.left == l) =
        (all_shape_infos slide).filter
          (fun r => r.shape.text.isSome && (r.top == t && r.left == l))) ∧
    ((emittedInfos i (sorted_shape_infos slide)).Pairwise (fun a b =>
        a.top < b.top ∨ (a.top = b.top ∧ a.left ≤ b.left))) := by
  have hpair : (sorted_shape_infos slide).Pairwise (fun a b =>
      a.top < b.top ∨ (a.top = b.top ∧ a.left ≤ b.left)) := by
    have h := List.sorted_mergeSort infoLe_trans infoLe_total
      (text_shape_infos (all_shape_infos slide))
    exact h.imp (fun hab => by
      simpa only [infoLe, decide_eq_true_eq] using hab)
  refine ⟨hpair, ?_, ?_⟩
  · intro t l
    have hstable := mergeSort_filter_stable
      (text_shape_infos (all_shape_infos slide))
      (fun r => r.top == t && r.left == l)
      (fun a b ha hb => by
        simp only [Bool.and_eq_true, beq_iff_eq] at ha hb
        simp [infoLe, ha.1, ha.2, hb.1, hb.2])
    rw [sorted_shape_infos] at *
    rw [hstable, text_shape_infos, List.filter_filter]
    congr 1
    funext a
    exact Bool.and_comm _ _
  · simp only [emittedInfos]
    exact hpair.sublist (List.filter_sublist _)

/-- `phCount` distributes over append. -/
theorem phCount_append (k : Nat) (a b : List ShapeInfo) :
    phCount k (a ++ b) = phCount k a + phCount k b := by
  simp [phCount, List.filter_append]

/-- `phCount` on a cons. -/
theorem phCount_cons (k : Nat) (x : ShapeInfo) (l : List ShapeInfo) :
    phCount k (x :: l) =
      if x.shape.is_placeholder && x.shape.placeholderIdx == k
      then phCount k l + 1 else phCount k l := by
  simp only [phCount, List.filter_cons]
  split <;> simp

/-- A sublist has no more placeholder records for an index. -/
theorem phCount_sublist_le (k : Nat) {a b : List ShapeInfo}
    (h : List.Sublist a b) : phCount k a ≤ phCount k b :=
  (h.filter _).length_le

/-- Permuted lists have the same placeholder record count. -/
theorem phCount_perm (k : Nat) {a b : List ShapeInfo}
    (h : a.Perm b) : phCount k a = phCount k b :=
  (h.filter _).length_eq

/-- The covered set after the layout loop holds the initial covered
indices plus every index appearing in the layout's placeholder list. -/
theorem layoutBackfill_snd_mem (k : Nat) :
    ∀ (ps : List Shape) (covered : List Nat),
      (k ∈ (layoutBackfill covered ps).2 ↔
        k ∈ covered ∨ k ∈ ps.map Shape.placeholderIdx) := by
  intro ps
  induction ps with
  | nil => intro covered; simp [layoutBackfill]
  | cons s rest ih =>
    intro covered
    by_cases h : s.placeholderIdx ∈ covered
    · rw [layoutBackfill, if_pos h, ih]
      simp only [List.map_cons, List.mem_cons]
      constructor
      · tauto
      · rintro (hc | hk | hr)
        · exact Or.inl hc
        · exact Or.inl (hk ▸ h)
        · exact Or.inr hr
    · rw [layoutBackfill, if_neg h]
      rw [ih]
      simp only [List.map_cons, List.mem_cons]
      tauto

/-- Every record the layout loop appends carries a layout shape. -/
theorem layoutBackfill_fst_shapes :
    ∀ (ps : List Shape) (covered : List Nat),
      ∀ info ∈ (layoutBackfill covered ps).1, info.shape ∈ ps := by
  intro ps
  induction ps with
  | nil => intro covered info h; simp [layoutBackfill] at h
  | cons s rest ih =>
    intro covered info h
    by_cases hc : s.placeholderIdx ∈ covered
    · rw [layoutBackfill, if_pos hc] at h
      exact List.mem_cons_of_mem s (ih covered info h)
    · rw [layoutBackfill, if_neg hc] at h
      rcases List.mem_cons.1 h with h1 | h1
      · subst h1; exact List.mem_cons_self s rest
      · exact List.mem_cons_of_mem s (ih _ info h1)

/-- The layout loop appends exactly one record for an index not yet
covered that occurs in the layout, and none otherwise. -/
theorem layoutBackfill_fst_phCount (k : Nat) :
    ∀ (ps : List Shape) (covered : List Nat),
      (∀ s ∈ ps, s.is_placeholder = true) →
      phCount k (layoutBackfill covered ps).1 =
        if k ∈ covered then 0
        else if k ∈ ps.map Shape.placeholderIdx then 1 else 0 := by
  intro ps
  induction ps with
  | nil =>
    intro covered hps
    simp [layoutBackfill, phCount]
  | cons s rest ih =>
    intro covered hps
    have hs : s.is_placeholder = true := hps s (List.mem_cons_self s rest)
    have hrest : ∀ x ∈ rest, x.is_placeholder = true :=
      fun x hx => hps x (List.mem_cons_of_mem s hx)
    by_cases h : s.placeholderIdx ∈ covered
    · rw [layoutBackfill, if_pos h, ih covered hrest]
      by_cases hk : k ∈ covered
      · simp [hk]
      · have hne : k ≠ s.placeholderIdx := fun e => hk (e ▸ h)
        simp [hk, List.mem_cons, hne]
    · rw [layoutBackfill, if_neg h, phCount_cons]
      simp only [hs, Bool.true_and]
      rw [ih (s.placeholderIdx :: covered) hrest]
      by_cases hk : k = s.placeholderIdx
      · subst hk
        simp [h]
      · have hbeq : (s.placeholderIdx == k) = false := by
          simp [Ne.symm hk]
        simp only [hbeq, Bool.false_eq_true, if_false]
        by_cases hkc : k ∈ covered
        · simp [hkc, List.mem_cons, hk]
        · simp [hkc, List.mem_cons, hk]

/-- The master loop appends one record per uncovered master index
occurrence; covered indices are skipped. -/
theorem masterBackfill_phCount (k : Nat) :
    ∀ (ps : List Shape) (covered : List Nat),
      (∀ s ∈ ps, s.is_placeholder = true) →
      phCount k (masterBackfill covered ps) =
        if k ∈ covered then 0
        else (ps.map Shape.placeholderIdx).count k := by
  intro ps
  induction ps with
  | nil =>
    intro covered hps
    simp [masterBackfill, phCount]
  | cons s rest ih =>
    intro covered hps
    have hs : s.is_placeholder = true := hps s (List.mem_cons_self s rest)
    have hrest : ∀ x ∈ rest, x.is_placeholder = true :=
      fun x hx => hps x (List.mem_cons_of_mem s hx)
    by_cases h : s.placeholderIdx ∈ covered
    · rw [masterBackfill, if_pos h, ih covered hrest]
      by_cases hk : k ∈ covered
      · simp [hk]
      · have hne : k ≠ s.placeholderIdx := fun e => hk (e ▸ h)
        simp [hk, List.map_cons, List.count_cons_of_ne hne]
    · rw [masterBackfill, if_neg h, phCount_cons]
      simp only [hs, Bool.true_and]
      rw [ih covered hrest]
      by_cases hk : k = s.placeholderIdx
      · subst hk
        simp [h, List.map_cons]
      · have hbeq : (s.placeholderIdx == k) = false := by
          simp [Ne.symm hk]
        simp only [hbeq, Bool.false_eq_true, if_false]
        by_cases hkc : k ∈ covered
        · simp [hkc]
        · simp [hkc, List.map_cons, List.count_cons_of_ne hk]

/-- An index is covered by the slide's own records iff some placeholder
record with that index is present. -/
theorem mem_added_iff_phCount_pos (k : Nat) (infos : List ShapeInfo) :
    k ∈ added_placeholder_idxs infos ↔ 0 < phCount k infos := by
  rw [phCount, ← List.countP_eq_length_filter, List.countP_pos_iff]
  simp only [added_placeholder_idxs, List.mem_map, List.mem_filter,
    Bool.and_eq_true, beq_iff_eq]
  constructor
  · rintro ⟨info, ⟨hmem, hph⟩, hidx⟩
    exact ⟨info, hmem, hph, hidx⟩
  · rintro ⟨info, hmem, hph, hidx⟩
    exact ⟨info, ⟨hmem, hph⟩, hidx⟩

/-- `phCount` of a record list equals the multiplicity of the index in
its covered-index list. -/
theorem phCount_eq_count_added (k : Nat) (infos : List ShapeInfo) :
    phCount k infos = (added_placeholder_idxs infos).count k := by
  rw [added_placeholder_idxs, List.count_eq_countP, List.countP_map,
      List.countP_filter, phCount, ← List.countP_eq_length_filter]
  apply List.countP_congr
  intro info _
  simp [Function.comp, Bool.and_comm]

/-- Per-index structure of the candidate set, under per-scope
uniqueness: at most one placeholder record per index, and exactly one
for each layout/master index the slide itself does not cover. -/
theorem phCount_all_shape_infos (slide : Slide) (k : Nat)
    (hnd : (added_placeholder_idxs
      (get_shapes_with_abs_position slide.shapes 0 0)).Nodup)
    (hlay : ∀ s ∈ slide.slide_layout.placeholders, s.is_placeholder = true)
    (hmas : ∀ s ∈ slide.slide_layout.slide_master.placeholders,
      s.is_placeholder = true)
    (hmnd : (slide.slide_layout.slide_master.placeholders.map
      Shape.placeholderIdx).Nodup) :
    phCount k (all_shape_infos slide) ≤ 1 ∧
    ((k ∉ added_placeholder_idxs (get_shapes_with_abs_position slide.shapes 0 0) ∧
      (k ∈ slide.slide_layout.placeholders.map Shape.placeholderIdx ∨
       k ∈ slide.slide_layout.slide_master.placeholders.map Shape.placeholderIdx)) →
      phCount k (all_shape_infos slide) = 1) := by
  have hall : all_shape_infos slide =
      get_shapes_with_abs_position slide.shapes 0 0 ++
        (layoutBackfill
          (added_placeholder_idxs (get_shapes_with_abs_position slide.shapes 0 0))
          slide.slide_layout.placeholders).1 ++
        masterBackfill
          (layoutBackfill
            (added_placeholder_idxs (get_shapes_with_abs_position slide.shapes 0 0))
            slide.slide_layout.placeholders).2
          slide.slide_layout.slide_master.placeholders := rfl
  rw [hall, phCount_append, phCount_append]
  rw [layoutBackfill_fst_phCount k slide.slide_layout.placeholders _ hlay,
      masterBackfill_phCount k slide.slide_layout.slide_master.placeholders _ hmas]
  have hA1 : phCount k (get_shapes_with_abs_position slide.shapes 0 0) ≤ 1 := by
    rw [phCount_eq_count_added]
    exact List.nodup_iff_count_le_one.1 hnd k
  have hApos := mem_added_iff_phCount_pos k (get_shapes_with_abs_position slide.shapes 0 0)
  have hmem2 := layoutBackfill_snd_mem k slide.slide_layout.placeholders
    (added_placeholder_idxs (get_shapes_with_abs_position slide.shapes 0 0))
  have hmas1 : (slide.slide_layout.slide_master.placeholders.map
      Shape.placeholderIdx).count k ≤ 1 :=
    List.nodup_iff_count_le_one.1 hmnd k
  by_cases hc : k ∈ added_placeholder_idxs
      (get_shapes_with_abs_position slide.shapes 0 0)
  · have hlb2 : k ∈ (layoutBackfill
        (added_placeholder_idxs (get_shapes_with_abs_position slide.shapes 0 0))
        slide.slide_layout.placeholders).2 := hmem2.2 (Or.inl hc)
    rw [if_pos hc, if_pos hlb2]
    exact ⟨by omega, fun h => absurd hc h.1⟩
  · have hA0 : phCount k (get_shapes_with_abs_position slide.shapes 0 0) = 0 := by
      have h1 : ¬ 0 < phCount k (get_shapes_with_abs_position slide.shapes 0 0) :=
        fun hp => hc (hApos.2 hp)
      omega
    rw [if_neg hc]
    by_cases hl : k ∈ slide.slide_layout.placeholders.map Shape.placeholderIdx
    · have hlb2 : k ∈ (layoutBackfill
          (added_placeholder_idxs (get_shapes_with_abs_position slide.shapes 0 0))
          slide.slide_layout.placeholders).2 := hmem2.2 (Or.inr hl)
      rw [if_pos hl, if_pos hlb2]
      exact ⟨by omega, fun _ => by omega⟩
    · have hlb2 : k ∉ (layoutBackfill
          (added_placeholder_idxs (get_shapes_with_abs_position slide.shapes 0 0))
          slide.slide_layout.placeholders).2 :=
        fun hx => (hmem2.1 hx).elim hc hl
      rw [if_neg hl, if_neg hlb2]
      constructor
      · omega
      · rintro ⟨-, hm | hm⟩
        · exact absurd hm hl
        · have hpos : 0 < (slide.slide_layout.slide_master.placeholders.map
              Shape.placeholderIdx).count k := List.count_pos_iff.2 hm
          omega

/-- C3: when the slide's, layout's and master's placeholder index sets
are each duplicate-free, every layout/master index the slide does not
itself supply appears exactly once in the candidate record set, each
index has at most one candidate record, and no index contributes more
than one text line. -/
theorem claim_C3_no_duplicate_placeholders (slide : Slide) (i k : Nat)
    (hnd : (added_placeholder_idxs
      (get_shapes_with_abs_position slide.shapes 0 0)).Nodup)
    (hlay : ∀ s ∈ slide.slide_layout.placeholders, s.is_placeholder = true)
    (hlnd : (slide.slide_layout.placeholders.map Shape.placeholderIdx).Nodup)
    (hmas : ∀ s ∈ slide.slide_layout.slide_master.placeholders,
      s.is_placeholder = true)
    (hmnd : (slide.slide_layout.slide_master.placeholders.map
      Shape.placeholderIdx).Nodup) :
    phCount k (all_shape_infos slide) ≤ 1 ∧
    ((k ∉ added_placeholder_idxs (get_shapes_with_abs_position slide.shapes 0 0) ∧
      (k ∈ slide.slide_layout.placeholders.map Shape.placeholderIdx ∨
       k ∈ slide.slide_layout.slide_master.placeholders.map Shape.placeholderIdx)) →
      phCount k (all_shape_infos slide) = 1) ∧
    phCount k (emittedInfos i (sorted_shape_infos slide)) ≤ 1 := by
  obtain ⟨h1, h2⟩ := phCount_all_shape_infos slide k hnd hlay hmas hmnd
  refine ⟨h1, h2, ?_⟩
  have e1 : phCount k (emittedInfos i (sorted_shape_infos slide)) ≤
      phCount k (sorted_shape_infos slide) :=
    phCount_sublist_le k (List.filter_sublist _)
  have e2 : phCount k (sorted_shape_infos slide) =
      phCount k (text_shape_infos (all_shape_infos slide)) :=
    phCount_perm k (List.mergeSort_perm _ infoLe)
  have e3 : phCount k (text_shape_infos (all_shape_infos slide)) ≤
      phCount k (all_shape_infos slide) :=
    phCount_sublist_le k (List.filter_sublist _)
  omega

/-- Witness for C3: a slide supplying index 1 whose layout defines
indices 1 and 2 and whose master defines indices 2 and 5; the unfilled
index 2 appears exactly once in the candidate set. -/
theorem claim_C3_no_duplicate_placeholders_witness :
    phCount 2 (all_shape_infos
      (Slide.mk [Shape.placeholder (some 0) (some 0) 1 PHType.Title (some "T")]
        (Layout.mk
          [Shape.placeholder (some 0) (some 0) 1 PHType.Title (some "LT"),
           Shape.placeholder (some 10) (some 10) 2 PHType.Body (some "LB")]
          (Master.mk
            [Shape.placeholder (some 20) (some 20) 2 PHType.Body (some "MB"),
             Shape.placeholder (some 30) (some 30) 5 PHType.OtherType (some "M5")])))) = 1 :=
  (claim_C3_no_duplicate_placeholders
    (Slide.mk [Shape.placeholder (some 0) (some 0) 1 PHType.Title (some "T")]
      (Layout.mk
        [Shape.placeholder (some 0) (some 0) 1 PHType.Title (some "LT"),
         Shape.placeholder (some 10) (some 10) 2 PHType.Body (some "LB")]
        (Master.mk
          [Shape.placeholder (some 20) (some 20) 2 PHType.Body (some "MB"),
           Shape.placeholder (some 30) (some 30) 5 PHType.OtherType (some "M5")])))
    1 2
    (by simp [get_shapes_with_abs_position, added_placeholder_idxs,
      Shape.is_placeholder, Shape.placeholderIdx])
    (by decide) (by decide) (by decide) (by decide)).2.1
    ⟨by simp [get_shapes_with_abs_position, added_placeholder_idxs,
        Shape.is_placeholder, Shape.placeholderIdx],
      Or.inl (by decide)⟩

/-- C4: when the slide does not supply index `k` but both its layout
and master define a placeholder with that index, the layout loop
appends exactly one record for `k` (with a layout shape) and the master
loop appends none — layout wins over master. -/
theorem claim_C4_layout_wins (slide : Slide) (k : Nat)
    (hlay : ∀ s ∈ slide.slide_layout.placeholders, s.is_placeholder = true)
    (hmas : ∀ s ∈ slide.slide_layout.slide_master.placeholders,
      s.is_placeholder = true)
    (hns : k ∉ added_placeholder_idxs (get_shapes_with_abs_position slide.shapes 0 0))
    (hinlay : k ∈ slide.slide_layout.placeholders.map Shape.placeholderIdx)
    (hinmas : k ∈ slide.slide_layout.slide_master.placeholders.map
      Shape.placeholderIdx) :
    phCount k (layoutBackfill (added_placeholder_idxs
        (get_shapes_with_abs_position slide.shapes 0 0))
        slide.slide_layout.placeholders).1 = 1 ∧
    (∀ info ∈ (layoutBackfill (added_placeholder_idxs
        (get_shapes_with_abs_position slide.shapes 0 0))
        slide.slide_layout.placeholders).1,
      info.shape ∈ slide.slide_layout.placeholders) ∧
    phCount k (masterBackfill (layoutBackfill (added_placeholder_idxs
        (get_shapes_with_abs_position slide.shapes 0 0))
        slide.slide_layout.placeholders).2
        slide.slide_layout.slide_master.placeholders) = 0 := by
  refine ⟨?_, layoutBackfill_fst_shapes _ _, ?_⟩
  · rw [layoutBackfill_fst_phCount k _ _ hlay, if_neg hns, if_pos hinlay]
  · rw [masterBackfill_phCount k _ _ hmas, if_pos
      ((layoutBackfill_snd_mem k _ _).2 (Or.inr hinlay))]

/-- Witness for C4: with the same slide/layout/master as the C3 witness
and index 2 defined by both layout and master but not the slide, the
master loop appends no record for index 2. -/
theorem claim_C4_layout_wins_witness :
    phCount 2 (masterBackfill (layoutBackfill (added_placeholder_idxs
        (get_shapes_with_abs_position
          [Shape.placeholder (some 0) (some 0) 1 PHType.Title (some "T")] 0 0))
        [Shape.placeholder (some 0) (some 0) 1 PHType.Title (some "LT"),
         Shape.placeholder (some 10) (some 10) 2 PHType.Body (some "LB")]).2
        [Shape.placeholder (some 20) (some 20) 2 PHType.Body (some "MB"),
         Shape.placeholder (some 30) (some 30) 5 PHType.OtherType (some "M5")]) = 0 :=
  (claim_C4_layout_wins
    (Slide.mk [Shape.placeholder (some 0) (some 0) 1 PHType.Title (some "T")]
      (Layout.mk
        [Shape.placeholder (some 0) (some 0) 1 PHType.Title (some "LT"),
         Shape.placeholder (some 10) (some 10) 2 PHType.Body (some "LB")]
        (Master.mk
          [Shape.placeholder (some 20) (some 20) 2 PHType.Body (some "MB"),
           Shape.placeholder (some 30) (some 30) 5 PHType.OtherType (some "M5")])))
    2
    (by decide) (by decide)
    (by simp [get_shapes_with_abs_position, added_placeholder_idxs,
      Shape.is_placeholder, Shape.placeholderIdx])
    (by decide) (by decide)).2.2

/-- Folding string append from any accumulator. -/
theorem foldl_string_append (l : List String) :
    ∀ acc : String, l.foldl (· ++ ·) acc = acc ++ l.foldl (· ++ ·) "" := by
  induction l with
  | nil => intro acc; simp
  | cons x rest ih =>
    intro acc
    rw [List.foldl_cons, List.foldl_cons, ih (acc ++ x), ih ("" ++ x),
      String.empty_append, String.append_assoc]

/-- `String.join` on a cons. -/
theorem string_join_cons (x : String) (l : List String) :
    String.join (x :: l) = x ++ String.join l := by
  show (x :: l).foldl (· ++ ·) "" = x ++ l.foldl (· ++ ·) ""
  rw [List.foldl_cons, foldl_string_append, String.empty_append]

/-- `String.join` distributes over list append. -/
theorem string_join_append (a b : List String) :
    String.join (a ++ b) = String.join a ++ String.join b := by
  induction a with
  | nil => rfl
  | cons x rest ih =>
    rw [List.cons_append, string_join_cons, string_join_cons, ih,
      String.append_assoc]

/-- The fold of lines 73-81 of `app.py` appends exactly the nonempty
rendered texts, each followed by one newline. -/
theorem foldl_appendShapeText (i : Nat) :
    ∀ (l : List ShapeInfo) (acc : String),
      l.foldl (appendShapeText i) acc =
        acc ++ String.join ((emittedInfos i l).map
          (fun info => shapeRenderedText i info.shape ++ "\n")) := by
  intro l
  induction l with
  | nil => intro acc; simp [emittedInfos, String.join]
  | cons x rest ih =>
    intro acc
    rw [List.foldl_cons]
    by_cases h : shapeRenderedText i x.shape = ""
    · have hstep : appendShapeText i acc x = acc := by
        simp [appendShapeText, h]
      have hfil : emittedInfos i (x :: rest) = emittedInfos i rest := by
        simp [emittedInfos, List.filter_cons, h]
      rw [hstep, hfil, ih]
    · have hstep : appendShapeText i acc x =
          acc ++ (shapeRenderedText i x.shape ++ "\n") := by
        simp [appendShapeText, h]
        rw [String.append_assoc]
      have hfil : emittedInfos i (x :: rest) = x :: emittedInfos i rest := by
        simp [emittedInfos, List.filter_cons, h]
      rw [hstep, hfil, ih, List.map_cons, string_join_cons,
        String.append_assoc]

/-- A string followed by newline-terminated pieces is newline-terminated
whenever the pieces are nonempty; used for the blank-line separation of
blocks. -/
theorem append_join_newline (ts : List String) :
    ∀ (s : String), (∃ r, s = r ++ "\n") →
      ∃ r, s ++ String.join (ts.map (fun t => t ++ "\n")) = r ++ "\n" := by
  induction ts using List.reverseRecOn with
  | nil =>
    intro s hs
    simpa [String.join] using hs
  | append_singleton rest x ih =>
    intro s hs
    have hx : String.join (List.map (fun t => t ++ "\n") [x]) = x ++ "\n" := by
      rw [List.map_cons, List.map_nil, string_join_cons,
        show String.join [] = "" from rfl, String.append_empty]
    refine ⟨s ++ String.join (rest.map (fun t => t ++ "\n")) ++ x, ?_⟩
    rw [List.map_append, string_join_append, hx, ← String.append_assoc,
      ← String.append_assoc]

/-- C7: the output is the slide blocks joined with "\n"; there is one
block per slide, the j-th block being the slide's text with 1-based
header index j+1; each block is the header line `=== SLIDE n ===`
followed by a newline and then the nonempty texts in sorted order, each
followed by a single newline; and every block ends with a newline, so
consecutive blocks are separated by exactly one empty line. -/
theorem claim_C7_output_assembly (slides : List Slide) :
    extract_text_from_pptx slides = String.intercalate "\n" (slideBlocks slides) ∧
    (slideBlocks slides).length = slides.length ∧
    (∀ j, j < slides.length →
      (slideBlocks slides).getD j "" =
        slide_text (j + 1)
          (slides.getD j (Slide.mk [] (Layout.mk [] (Master.mk []))))) ∧
    (∀ (i : Nat) (slide : Slide), slide_text i slide =
      ("=== SLIDE " ++ toString i ++ " ===\n") ++
        String.join ((emittedInfos i (sorted_shape_infos slide)).map
          (fun info => shapeRenderedText i info.shape ++ "\n"))) ∧
    (∀ (i : Nat) (slide : Slide), ∃ r, slide_text i slide = r ++ "\n") := by
  refine ⟨rfl, ?_, ?_, ?_, ?_⟩
  · simp [slideBlocks]
  · intro j hj
    have hlen : (slideBlocks slides).length = slides.length := by
      simp [slideBlocks]
    have hj2 : j < (slideBlocks slides).length := by rw [hlen]; exact hj
    rw [List.getD_eq_getElem?_getD, List.getElem?_eq_getElem hj2,
        List.getD_eq_getElem?_getD, List.getElem?_eq_getElem hj]
    simp only [Option.getD_some, slideBlocks, List.getElem_map,
      List.getElem_enumFrom]
    rw [Nat.add_comm]
  · intro i slide
    rw [slide_text, foldl_appendShapeText]
  · intro i slide
    rw [slide_text, foldl_appendShapeText]
    have hmm : List.map (fun info => shapeRenderedText i info.shape ++ "\n")
        (emittedInfos i (sorted_shape_infos slide)) =
      List.map (fun t => t ++ "\n")
        (List.map (fun info => shapeRenderedText i info.shape)
          (emittedInfos i (sorted_shape_infos slide))) := by
      rw [List.map_map]
      rfl
    rw [hmm]
    apply append_join_newline
    refine ⟨"=== SLIDE " ++ toString i ++ " ===", ?_⟩
    rw [String.append_assoc, show (" ===\n" : String) = " ===" ++ "\n" from rfl,
      ← String.append_assoc, ← String.append_assoc]

/-- Witness for C7: in a two-slide document the second block is the
second slide's text with header index 2. -/
theorem claim_C7_output_assembly_witness :
    (slideBlocks
      [Slide.mk [Shape.other (some 0) (some 0) (some "Intro")]
        (Layout.mk [] (Master.mk [])),
       Slide.mk [] (Layout.mk [] (Master.mk
        [Shape.placeholder (some 90) (some 90) 10 PHType.SlideNumber (some "n")]))]).getD
      1 "" =
    slide_text (1 + 1)
      ([Slide.mk [Shape.other (some 0) (some 0) (some "Intro")]
          (Layout.mk [] (Master.mk [])),
        Slide.mk [] (Layout.mk [] (Master.mk
          [Shape.placeholder (some 90) (some 90) 10 PHType.SlideNumber (some "n")]))].getD
        1 (Slide.mk [] (Layout.mk [] (Master.mk [])))) :=
  (claim_C7_output_assembly
    [Slide.mk [Shape.other (some 0) (some 0) (some "Intro")]
      (Layout.mk [] (Master.mk [])),
     Slide.mk [] (Layout.mk [] (Master.mk
      [Shape.placeholder (some 90) (some 90) 10 PHType.SlideNumber (some "n")]))]).2.2.1
    1 (by decide)

end PptxToTxt
